import Mathlib

/-!
Verification of the expense-tracking application against its specification.

The Python sources are shallowly embedded: pure helpers become Lean
functions, the in-memory repositories become explicit state passing over
association lists (mirroring Python dict insertion-order semantics),
`Decimal`/`float` become `Rat`, and raised exceptions become `Except`
errors or error components of a returned pair.
-/

/-! ## Python string primitives used by the preprocessor and services -/

/-- The ASCII whitespace characters recognised by Python `str.strip()` and
the regex class backslash-s (space, tab, newline, carriage return,
vertical tab, form feed). -/
def pySpace (c : Char) : Bool :=
  c = ' ' || c = '\t' || c = '\n' || c = '\r' || c = '\x0b' || c = '\x0c'

/-- Leading and trailing whitespace removal on a character list. -/
def stripChars (l : List Char) : List Char :=
  ((l.dropWhile pySpace).reverse.dropWhile pySpace).reverse

/-- Python `str.strip()`. -/
def pyStrip (s : String) : String := String.mk (stripChars s.data)

/-- Python `re.sub(backslash-s+, " ", text)`: every maximal run of
whitespace characters is replaced by a single space. -/
def collapseRuns : List Char → List Char
  | [] => []
  | [c] => if pySpace c then [' '] else [c]
  | c₁ :: c₂ :: rest =>
    if pySpace c₁ && pySpace c₂ then collapseRuns (c₂ :: rest)
    else (if pySpace c₁ then ' ' else c₁) :: collapseRuns (c₂ :: rest)

/-- Does `l` start with the pattern `p` (character-exact)? -/
def startsWithL : List Char → List Char → Bool
  | [], _ => true
  | _ :: _, [] => false
  | p :: ps, c :: cs => p = c && startsWithL ps cs

/-- Does `l` contain the pattern `pat` as a contiguous sublist? -/
def containsL (pat : List Char) : List Char → Bool
  | [] => startsWithL pat []
  | c :: cs => startsWithL pat (c :: cs) || containsL pat cs

/-- Substring test on strings. -/
def containsSub (pat s : String) : Bool := containsL pat.data s.data

/-- ASCII lowercasing of a string, modelling `re.IGNORECASE` matching of
the all-lowercase literal patterns used by the preprocessor. -/
def lowerStr (s : String) : String := String.mk (s.data.map Char.toLower)

/-! ## InputPreprocessor (services/preprocessing.py) -/

/-- Result of input preprocessing, mirroring `PreprocessingResult`. -/
structure PreprocessingResult where
  cleaned_text : String
  is_valid : Bool
  validation_errors : List String
  warnings : List String
deriving Repr, DecidableEq

def MIN_LENGTH : Nat := 3

def MAX_LENGTH : Nat := 500

def SUSPICIOUS_PATTERNS : List String := ["<script", "javascript:", "onerror="]

def msgEmpty : String := "Input cannot be empty"

def msgTooShort : String := "Input too short (min 3 characters)"

def msgTooLong : String := "Input too long (max 500 characters)"

def msgSuspicious : String := "Suspicious input detected"

def msgNoAmount : String := "No amount detected - expense amount may be missing"

/-- One textual `str.replace` of a single character by a string. -/
def replaceChar (sym : Char) (rep : List Char) (l : List Char) : List Char :=
  (l.map (fun c => if c = sym then rep else [c])).flatten

/-- `InputPreprocessor._normalize_currency`: replace the euro, pound and
yen symbols by `" EUR "`, `" GBP "`, `" JPY "` in turn, then collapse
whitespace and strip. -/
def normalize_currency (s : String) : String :=
  let t := replaceChar '¥' " JPY ".data
    (replaceChar '£' " GBP ".data
      (replaceChar '€' " EUR ".data s.data))
  pyStrip (String.mk (collapseRuns t))

/-- `InputPreprocessor.preprocess`: validate and clean an expense
description.  Empty (after stripping) input short-circuits; otherwise
length errors, suspicious-pattern errors, whitespace collapsing, currency
normalization and the missing-amount warning are computed in source
order, and `is_valid` is the emptiness of the error list. -/
def preprocess (text : String) : PreprocessingResult :=
  if pyStrip text = "" then
    ⟨"", false, [msgEmpty], []⟩
  else
    let stripped := pyStrip text
    let errors :=
      (if stripped.length < MIN_LENGTH then [msgTooShort] else []) ++
      (if stripped.length > MAX_LENGTH then [msgTooLong] else []) ++
      (SUSPICIOUS_PATTERNS.filter
        (fun p => containsSub p (lowerStr stripped))).map (fun _ => msgSuspicious)
    let cleaned := normalize_currency (String.mk (collapseRuns stripped.data))
    let warnings :=
      if !(cleaned.data.any Char.isDigit) then [msgNoAmount] else []
    ⟨cleaned, errors.isEmpty, errors, warnings⟩

/-- C9: `preprocess` is a total function (it is defined for every input
string and raises nothing), and the returned `is_valid` flag is true
exactly when the returned `validation_errors` list is empty. -/
theorem preprocess_is_valid_iff_no_errors (text : String) :
    (preprocess text).is_valid = true ↔ (preprocess text).validation_errors = [] := by
  unfold preprocess
  by_cases h : pyStrip text = ""
  · simp [h]
  · simp only [h, if_false]
    exact List.isEmpty_iff

/-- C5: any input whose stripped length falls outside the `[3, 500]`
window (including empty and whitespace-only input) is reported invalid
with a length-related message among the validation errors. -/
theorem preprocess_length_errors (text : String)
    (h : (pyStrip text).length < MIN_LENGTH ∨ MAX_LENGTH < (pyStrip text).length) :
    (preprocess text).is_valid = false ∧
      (msgEmpty ∈ (preprocess text).validation_errors ∨
       msgTooShort ∈ (preprocess text).validation_errors ∨
       msgTooLong ∈ (preprocess text).validation_errors) := by
  by_cases he : pyStrip text = ""
  · unfold preprocess
    simp [he]
  · unfold preprocess
    simp only [he, if_false]
    rcases h with h | h
    · refine ⟨by simp [h], Or.inr (Or.inl ?_)⟩
      simp [h]
    · have hnlt : ¬ (pyStrip text).length < MIN_LENGTH := by
        unfold MIN_LENGTH
        unfold MAX_LENGTH at h
        omega
      refine ⟨by simp [h, hnlt], Or.inr (Or.inr ?_)⟩
      simp [h]

/-- Witness for C5 at the concrete two-character input `"ab"`. -/
theorem preprocess_length_errors_witness :
    ((pyStrip "ab").length < MIN_LENGTH ∨ MAX_LENGTH < (pyStrip "ab").length) ∧
      ((preprocess "ab").is_valid = false ∧
        (msgEmpty ∈ (preprocess "ab").validation_errors ∨
         msgTooShort ∈ (preprocess "ab").validation_errors ∨
         msgTooLong ∈ (preprocess "ab").validation_errors)) :=
  ⟨by decide, preprocess_length_errors "ab" (by decide)⟩

/-- Counterexample to C6 as stated: `"ab"` contains no digit character,
yet `preprocess` reports it invalid (it is below the minimum length), so
digit-free input does not always yield `is_valid = true`. -/
theorem preprocess_no_digit_claim_false :
    ("ab".data.any Char.isDigit = false) ∧ (preprocess "ab").is_valid = false := by
  decide

/-- Every character of a stripped list comes from the original list. -/
theorem mem_stripChars {c : Char} {l : List Char} (h : c ∈ stripChars l) : c ∈ l := by
  unfold stripChars at h
  have h1 : c ∈ (l.dropWhile pySpace).reverse.dropWhile pySpace :=
    List.mem_reverse.mp h
  have h2 : c ∈ (l.dropWhile pySpace).reverse :=
    (List.dropWhile_sublist _).subset h1
  exact (List.dropWhile_sublist _).subset (List.mem_reverse.mp h2)

/-- Every character of a whitespace-collapsed list is a space or comes
from the original list. -/
theorem mem_collapseRuns {c : Char} : ∀ {l : List Char},
    c ∈ collapseRuns l → c = ' ' ∨ c ∈ l := by
  intro l
  induction l with
  | nil => intro h; simp [collapseRuns] at h
  | cons a t ih =>
    intro h
    cases t with
    | nil =>
      by_cases ha : pySpace a = true
      · simp [collapseRuns, ha] at h
        exact Or.inl h
      · simp [collapseRuns, ha] at h
        exact Or.inr (by simp [h])
    | cons b r =>
      unfold collapseRuns at h
      by_cases hab : (pySpace a && pySpace b) = true
      · rw [if_pos hab] at h
        rcases ih h with h' | h'
        · exact Or.inl h'
        · exact Or.inr (List.mem_cons_of_mem a h')
      · rw [if_neg hab] at h
        rcases List.mem_cons.mp h with h' | h'
        · by_cases hsa : pySpace a = true
          · rw [if_pos hsa] at h'; exact Or.inl h'
          · rw [if_neg hsa] at h'; exact Or.inr (by simp [h'])
        · rcases ih h' with h'' | h''
          · exact Or.inl h''
          · exact Or.inr (List.mem_cons_of_mem a h'')

/-- Every character after a symbol replacement is from the replacement
text or from the original list. -/
theorem mem_replaceChar {c sym : Char} {rep l : List Char}
    (h : c ∈ replaceChar sym rep l) : c ∈ rep ∨ c ∈ l := by
  unfold replaceChar at h
  rw [List.mem_flatten] at h
  obtain ⟨m, hm, hc⟩ := h
  rw [List.mem_map] at hm
  obtain ⟨a, ha, rfl⟩ := hm
  by_cases hs : a = sym
  · rw [if_pos hs] at hc
    exact Or.inl hc
  · rw [if_neg hs] at hc
    rcases List.mem_singleton.mp hc with rfl
    exact Or.inr ha

/-- Digit-freeness is preserved by the whole cleaning pipeline (strip,
whitespace collapsing, currency-symbol replacement): the replacement
texts contain no digits and the other stages only drop characters or
insert spaces. -/
theorem cleaned_noDigit {text : String}
    (hnd : ∀ c ∈ text.data, c.isDigit = false) :
    ∀ c ∈ (normalize_currency (String.mk (collapseRuns (pyStrip text).data))).data,
      c.isDigit = false := by
  have hstrip : ∀ c ∈ (pyStrip text).data, c.isDigit = false := by
    intro c hc
    exact hnd c (mem_stripChars hc)
  have hcol : ∀ c ∈ collapseRuns (pyStrip text).data, c.isDigit = false := by
    intro c hc
    rcases mem_collapseRuns hc with rfl | hc'
    · decide
    · exact hstrip c hc'
  unfold normalize_currency
  intro c hc
  have hc1 := mem_stripChars hc
  have hjpy : ∀ x ∈ " JPY ".data, x.isDigit = false := by decide
  have hgbp : ∀ x ∈ " GBP ".data, x.isDigit = false := by decide
  have heur : ∀ x ∈ " EUR ".data, x.isDigit = false := by decide
  rcases mem_collapseRuns hc1 with rfl | hc2
  · decide
  · rcases mem_replaceChar hc2 with h' | hc3
    · exact hjpy c h'
    · rcases mem_replaceChar hc3 with h' | hc4
      · exact hgbp c h'
      · rcases mem_replaceChar hc4 with h' | hc5
        · exact heur c h'
        · exact hcol c hc5

/-- C6 (amended): a digit-free description that passes the other
validations (non-empty after stripping, length within the window, no
suspicious pattern) is reported valid and carries the non-empty
missing-amount warning list; digit-free input failing those validations
is reported invalid instead. -/
theorem preprocess_no_digit_warns (text : String)
    (hne : pyStrip text ≠ "")
    (hmin : MIN_LENGTH ≤ (pyStrip text).length)
    (hmax : (pyStrip text).length ≤ MAX_LENGTH)
    (hsafe : ∀ p ∈ SUSPICIOUS_PATTERNS, containsSub p (lowerStr (pyStrip text)) = false)
    (hnd : text.data.any Char.isDigit = false) :
    (preprocess text).is_valid = true ∧ (preprocess text).warnings ≠ [] := by
  have hnd' : ∀ c ∈ text.data, c.isDigit = false := by
    intro c hc
    have := List.any_eq_false.mp hnd c hc
    simpa using this
  have hnlt : ¬ (pyStrip text).length < MIN_LENGTH := by omega
  have hngt : ¬ (pyStrip text).length > MAX_LENGTH := by omega
  have hfil :
      SUSPICIOUS_PATTERNS.filter
        (fun p => containsSub p (lowerStr (pyStrip text))) = [] := by
    rw [List.filter_eq_nil_iff]
    intro p hp
    simp [hsafe p hp]
  have hclean :
      (normalize_currency
        (String.mk (collapseRuns (pyStrip text).data))).data.any Char.isDigit = false := by
    rw [List.any_eq_false]
    intro c hc
    simpa using cleaned_noDigit hnd' c hc
  unfold preprocess
  simp only [hne, if_false]
  constructor
  · simp [hnlt, hngt, hfil]
  · simp [hclean]

/-- Witness for C6 (amended) at the concrete digit-free input
`"Coffee with friends"`. -/
theorem preprocess_no_digit_warns_witness :
    (preprocess "Coffee with friends").is_valid = true ∧
      (preprocess "Coffee with friends").warnings ≠ [] :=
  preprocess_no_digit_warns "Coffee with friends" (by decide) (by decide)
    (by decide) (by decide) (by decide)

/-! ## Data model (storage/models.py) -/

/-- Closed enumeration of ISO currency codes (`Currency`). -/
inductive Currency
  | USD | EUR | GBP | JPY | AUD | CAD | CHF | CNY | SEK | NZD
deriving Repr, DecidableEq

/-- `ExpenseCategory`: optional primary key and unique name. -/
structure ExpenseCategory where
  id : Option Nat
  name : String
deriving Repr, DecidableEq

/-- `Expense`: optional primary key, decimal amount (as `Rat`), currency,
optional description, optional owning category and optional external
user id.  Timestamps are irrelevant to the claims and omitted. -/
structure Expense where
  id : Option Nat
  amount : Rat
  currency : Currency
  description : Option String
  category : Option ExpenseCategory
  telegram_user_id : Option Int
deriving Repr, DecidableEq

/-! ## InMemoryCategoryRepository (storage/repo.py)

The backing Python dict is modelled as an insertion-ordered association
list with unique keys. -/

/-- State of `InMemoryCategoryRepository`: the `categories` dict. -/
abbrev CatState := List (String × ExpenseCategory)

/-- Python `self.categories.get(name)`: exact, case-sensitive key lookup. -/
def catLookup (s : CatState) (name : String) : Option ExpenseCategory :=
  (s.find? (fun p => p.1 = name)).map Prod.snd

/-- `InMemoryCategoryRepository.get`: exact lookup, raising
`CategoryNotFoundError` when the name is absent. -/
def catGet (s : CatState) (name : String) : Except String ExpenseCategory :=
  match catLookup s name with
  | some c => Except.ok c
  | none => Except.error "Category not found"

/-- `InMemoryCategoryRepository.add`: fails when the name is already a
key, otherwise inserts the new entry (dict insertion order). -/
def catAdd (s : CatState) (c : ExpenseCategory) : Except String CatState :=
  if (catLookup s c.name).isSome then Except.error "Category already exists"
  else Except.ok (s ++ [(c.name, c)])

/-! ## InMemoryExpenseRepository (storage/repo.py) -/

/-- State of `InMemoryExpenseRepository`: the `expenses` dict plus the
auto-incrementing `next_id` counter. -/
structure ExpState where
  expenses : List (Nat × Expense)
  nextId : Nat
deriving Repr, DecidableEq

/-- Fresh repository: empty dict, `next_id = 1`. -/
def initExpState : ExpState := ⟨[], 1⟩

/-- Python dict assignment `d[k] = v`: replace in place when the key
exists, append otherwise. -/
def dictSet (l : List (Nat × Expense)) (k : Nat) (v : Expense) : List (Nat × Expense) :=
  if l.any (fun p => p.1 = k) then
    l.map (fun p => if p.1 = k then (k, v) else p)
  else l ++ [(k, v)]

/-- The keys of the expenses dict. -/
def expKeys (s : ExpState) : List Nat := s.expenses.map Prod.fst

/-- `InMemoryExpenseRepository.add`: set the expense's `id` field to the
current `next_id`, store it under that key, and increment `next_id`.
Returns the stored expense together with the new state. -/
def expAdd (s : ExpState) (e : Expense) : Expense × ExpState :=
  let stored := { e with id := some s.nextId }
  (stored, ⟨dictSet s.expenses s.nextId stored, s.nextId + 1⟩)

/-- `InMemoryExpenseRepository.delete`: raise `ExpenseNotFoundError` when
the id is not a key (leaving the dict untouched), otherwise remove the
entry. -/
def expDelete (s : ExpState) (i : Nat) : Except String Unit × ExpState :=
  if (expKeys s).contains i then
    (Except.ok (), ⟨s.expenses.filter (fun p => p.1 ≠ i), s.nextId⟩)
  else (Except.error "Expense not found", s)

/-- `InMemoryExpenseRepository.update`: raise `ExpenseNotFoundError` when
the expense's id is not a key, otherwise overwrite the entry at that
key. -/
def expUpdate (s : ExpState) (e : Expense) : Except String Unit × ExpState :=
  match e.id with
  | some i =>
    if (expKeys s).contains i then (Except.ok (), ⟨dictSet s.expenses i e, s.nextId⟩)
    else (Except.error "Expense not found", s)
  | none => (Except.error "Expense not found", s)

/-- C8: deleting an id that is not present raises the expense-not-found
error and leaves the repository state unchanged, and therefore deleting
the same missing id twice raises the same error both times. -/
theorem expDelete_missing_id (s : ExpState) (i : Nat)
    (h : (expKeys s).contains i = false) :
    expDelete s i = (Except.error "Expense not found", s) ∧
      expDelete (expDelete s i).2 i = (Except.error "Expense not found", s) := by
  have h1 : expDelete s i = (Except.error "Expense not found", s) := by
    unfold expDelete
    rw [h]
    simp
  exact ⟨h1, by rw [h1]; exact h1⟩

/-- Witness for C8: deleting id 7 from a fresh repository. -/
theorem expDelete_missing_id_witness :
    expDelete initExpState 7 = (Except.error "Expense not found", initExpState) ∧
      expDelete (expDelete initExpState 7).2 7 =
        (Except.error "Expense not found", initExpState) :=
  expDelete_missing_id initExpState 7 (by decide)

/-- One mutating operation on `InMemoryExpenseRepository`. -/
inductive RepoOp
  | addE (e : Expense)
  | updateE (e : Expense)
  | deleteE (i : Nat)

/-- Execute one operation, keeping the post-state (a raised not-found
error leaves the state unchanged). -/
def execOp (s : ExpState) : RepoOp → ExpState
  | RepoOp.addE e => (expAdd s e).2
  | RepoOp.updateE e => (expUpdate s e).2
  | RepoOp.deleteE i => (expDelete s i).2

/-- Execute a sequence of operations from a given state. -/
def execOps (s : ExpState) (ops : List RepoOp) : ExpState := ops.foldl execOp s

/-- The ids handed out by the `add` operations of a run, in order. -/
def assignedIds : ExpState → List RepoOp → List Nat
  | _, [] => []
  | s, RepoOp.addE e :: rest => s.nextId :: assignedIds (execOp s (RepoOp.addE e)) rest
  | s, op :: rest => assignedIds (execOp s op) rest

/-- The id/key invariant of `InMemoryExpenseRepository`: keys are
pairwise distinct, every stored expense's `id` field equals its key, and
every key is below `next_id`. -/
def RepoInv (s : ExpState) : Prop :=
  (expKeys s).Nodup ∧
  (∀ p ∈ s.expenses, p.2.id = some p.1) ∧
  (∀ p ∈ s.expenses, p.1 < s.nextId)

/-- `next_id` never decreases under any repository operation. -/
theorem execOp_nextId_mono (s : ExpState) (op : RepoOp) :
    s.nextId ≤ (execOp s op).nextId := by
  cases op with
  | addE e => simp [execOp, expAdd]
  | updateE e =>
    show s.nextId ≤ (expUpdate s e).2.nextId
    unfold expUpdate
    cases h : e.id with
    | none => simp
    | some i =>
      simp only
      split
      · exact Nat.le_refl _
      · exact Nat.le_refl _
  | deleteE i =>
    show s.nextId ≤ (expDelete s i).2.nextId
    unfold expDelete
    split
    · exact Nat.le_refl _
    · exact Nat.le_refl _

/-- Keys of a dict after assignment: unchanged when the key was present,
extended by the key otherwise. -/
theorem dictSet_keys (l : List (Nat × Expense)) (k : Nat) (v : Expense) :
    (dictSet l k v).map Prod.fst =
      if l.any (fun p => p.1 = k) then l.map Prod.fst else l.map Prod.fst ++ [k] := by
  unfold dictSet
  by_cases h : l.any (fun p => p.1 = k) = true
  · rw [if_pos h, if_pos h, List.map_map]
    refine List.map_congr_left ?_
    intro p _
    by_cases hp : p.1 = k
    · simp [hp]
    · simp [hp]
  · rw [if_neg h, if_neg h]
    simp

/-- Each repository operation preserves the id/key invariant. -/
theorem execOp_inv (s : ExpState) (op : RepoOp) (h : RepoInv s) :
    RepoInv (execOp s op) := by
  obtain ⟨hnd, hid, hlt⟩ := h
  cases op with
  | addE e =>
    have habs : s.expenses.any (fun p => p.1 = s.nextId) = false := by
      rw [List.any_eq_false]
      intro p hp
      simp only [decide_eq_true_eq]
      exact Nat.ne_of_lt (hlt p hp)
    have hset : dictSet s.expenses s.nextId { e with id := some s.nextId } =
        s.expenses ++ [(s.nextId, { e with id := some s.nextId })] := by
      unfold dictSet
      rw [habs]
      simp
    refine ⟨?_, ?_, ?_⟩
    · show ((expAdd s e).2.expenses.map Prod.fst).Nodup
      simp only [expAdd, hset]
      rw [List.map_append, List.nodup_append]
      refine ⟨hnd, by simp, ?_⟩
      intro a ha
      simp only [List.map_cons, List.map_nil, List.mem_singleton]
      intro hae
      rcases List.mem_map.mp ha with ⟨p, hp, rfl⟩
      exact Nat.ne_of_lt (hlt p hp) hae
    · intro p hp
      simp only [execOp, expAdd, hset, List.mem_append, List.mem_singleton] at hp
      rcases hp with hp | rfl
      · exact hid p hp
      · rfl
    · intro p hp
      simp only [execOp, expAdd, hset, List.mem_append, List.mem_singleton] at hp
      rcases hp with hp | rfl
      · exact Nat.lt_succ_of_lt (hlt p hp)
      · exact Nat.lt_succ_self _
  | updateE e =>
    show RepoInv (expUpdate s e).2
    unfold expUpdate
    cases he : e.id with
    | none => exact ⟨hnd, hid, hlt⟩
    | some i =>
      simp only
      by_cases hc : (expKeys s).contains i = true
      · rw [if_pos hc]
        have hmem : i ∈ expKeys s := by simpa using hc
        have hpres : s.expenses.any (fun p => p.1 = i) = true := by
          rw [List.any_eq_true]
          unfold expKeys at hmem
          rcases List.mem_map.mp hmem with ⟨p, hp, hfst⟩
          exact ⟨p, hp, by simp [hfst]⟩
        refine ⟨?_, ?_, ?_⟩
        · show ((dictSet s.expenses i e).map Prod.fst).Nodup
          rw [dictSet_keys, if_pos hpres]
          exact hnd
        · intro p hp
          simp only [dictSet, hpres, if_true, List.mem_map] at hp
          rcases hp with ⟨q, hq, rfl⟩
          by_cases hqi : q.1 = i
          · simp [hqi, he]
          · simpa [hqi] using hid q hq
        · intro p hp
          simp only [dictSet, hpres, if_true, List.mem_map] at hp
          rcases hp with ⟨q, hq, rfl⟩
          by_cases hqi : q.1 = i
          · simpa [hqi] using hqi ▸ hlt q hq
          · simpa [hqi] using hlt q hq
      · rw [if_neg hc]
        exact ⟨hnd, hid, hlt⟩
  | deleteE i =>
    show RepoInv (expDelete s i).2
    unfold expDelete
    by_cases hc : (expKeys s).contains i = true
    · rw [if_pos hc]
      refine ⟨?_, ?_, ?_⟩
      · show ((s.expenses.filter (fun p => p.1 ≠ i)).map Prod.fst).Nodup
        have hsub : List.Sublist ((s.expenses.filter (fun p => p.1 ≠ i)).map Prod.fst)
            (s.expenses.map Prod.fst) :=
          (List.filter_sublist s.expenses).map Prod.fst
        exact List.Nodup.sublist hsub hnd
      · intro p hp
        exact hid p (List.mem_of_mem_filter hp)
      · intro p hp
        exact hlt p (List.mem_of_mem_filter hp)
    · rw [if_neg hc]
      exact ⟨hnd, hid, hlt⟩

/-- A run of operations preserves the id/key invariant. -/
theorem execOps_inv : ∀ (ops : List RepoOp) (s : ExpState), RepoInv s →
    RepoInv (execOps s ops)
  | [], _, h => h
  | op :: rest, s, h => execOps_inv rest (execOp s op) (execOp_inv s op h)

/-- Every id handed out during a run is at least the starting `next_id`. -/
theorem assignedIds_lb : ∀ (ops : List RepoOp) (s : ExpState),
    ∀ i ∈ assignedIds s ops, s.nextId ≤ i := by
  intro ops
  induction ops with
  | nil => intro s i hi; simp [assignedIds] at hi
  | cons op rest ih =>
    intro s i hi
    cases op with
    | addE e =>
      simp only [assignedIds, List.mem_cons] at hi
      rcases hi with rfl | hi
      · exact Nat.le_refl _
      · exact Nat.le_trans (execOp_nextId_mono s (RepoOp.addE e))
          (ih (execOp s (RepoOp.addE e)) i hi)
    | updateE e =>
      simp only [assignedIds] at hi
      exact Nat.le_trans (execOp_nextId_mono s (RepoOp.updateE e))
        (ih (execOp s (RepoOp.updateE e)) i hi)
    | deleteE j =>
      simp only [assignedIds] at hi
      exact Nat.le_trans (execOp_nextId_mono s (RepoOp.deleteE j))
        (ih (execOp s (RepoOp.deleteE j)) i hi)

/-- The ids handed out by `add` during a run are strictly increasing. -/
theorem assignedIds_sorted : ∀ (ops : List RepoOp) (s : ExpState),
    (assignedIds s ops).Pairwise (· < ·) := by
  intro ops
  induction ops with
  | nil => intro s; simp [assignedIds]
  | cons op rest ih =>
    intro s
    cases op with
    | addE e =>
      simp only [assignedIds]
      refine List.Pairwise.cons ?_ (ih _)
      intro i hi
      have h1 : (execOp s (RepoOp.addE e)).nextId ≤ i :=
        assignedIds_lb rest _ i hi
      have h2 : (execOp s (RepoOp.addE e)).nextId = s.nextId + 1 := by
        simp [execOp, expAdd]
      omega
    | updateE e =>
      simp only [assignedIds]
      exact ih _
    | deleteE j =>
      simp only [assignedIds]
      exact ih _

/-- C10: after any sequence of add/update/delete operations on a fresh
`InMemoryExpenseRepository`, the stored keys are pairwise distinct, every
stored expense's `id` field equals its storage key, every key is below
`next_id`, and the ids handed out by `add` over the whole run are
strictly increasing — so an id is never reassigned to a later expense,
even after the original is deleted. -/
theorem inMemoryExpenseRepo_id_invariant (ops : List RepoOp) :
    RepoInv (execOps initExpState ops) ∧
      (assignedIds initExpState ops).Pairwise (· < ·) :=
  ⟨execOps_inv ops initExpState ⟨by simp [expKeys, initExpState], by simp [initExpState],
      by simp [initExpState]⟩,
    assignedIds_sorted ops initExpState⟩

/-! ## ClassificationService (services/classification.py) -/

/-- `ExpenseCategorizationResponse` (llms/output.py): the LLM's typed
classification payload.  `Decimal` and `float` fields are `Rat`; the
timestamp is an abstract clock value. -/
structure CategorizationResponse where
  category : String
  total_amount : Rat
  currency : Currency
  confidence : Rat
  cost : Rat
  comments : Option String
  timestamp : Nat
deriving Repr, DecidableEq

/-- The get-or-create step of `ClassificationService._persist_expense`:
`category_repo.get(name)` and, on `CategoryNotFoundError`, a
`category_repo.add` of a fresh category with that name.  The `add`
cannot fail because `get` just failed on the same name, so its error
branch is unreachable (it returns the pre-state). -/
def getOrCreateCategory (s : CatState) (name : String) : ExpenseCategory × CatState :=
  match catGet s name with
  | Except.ok c => (c, s)
  | Except.error _ =>
    let c : ExpenseCategory := ⟨none, name⟩
    match catAdd s c with
    | Except.ok s' => (c, s')
    | Except.error _ => (c, s)

/-- Result of the persistence path: the category row and expense row it
returns, together with the updated repository states. -/
structure PersistOutcome where
  category : ExpenseCategory
  expense : Expense
  catState : CatState
  expState : ExpState
deriving Repr, DecidableEq

/-- `ClassificationService._persist_expense`: strip the LLM's returned
category name, get-or-create that category, build the expense from the
response, and add it to the expense repository. -/
def persist_expense (catS : CatState) (expS : ExpState)
    (response : CategorizationResponse) (description : String)
    (telegram_user_id : Option Int) : PersistOutcome :=
  let category_name := pyStrip response.category
  let gc := getOrCreateCategory catS category_name
  let e : Expense :=
    ⟨none, response.total_amount, response.currency, some description,
      some gc.1, telegram_user_id⟩
  let ae := expAdd expS e
  ⟨gc.1, ae.1, gc.2, ae.2⟩

/-- `ClassificationService.classify`: reject blank descriptions, obtain
the LLM response (the assistant and prompt construction are abstracted
into a function from the description), and persist when requested. -/
def classify (assistant : String → CategorizationResponse)
    (catS : CatState) (expS : ExpState) (expense_description : String)
    (persist : Bool) (telegram_user_id : Option Int) :
    Except String (CategorizationResponse × Option PersistOutcome) :=
  if pyStrip expense_description = "" then
    Except.error "Expense description cannot be empty"
  else
    let response := assistant expense_description
    if persist then
      Except.ok (response, some (persist_expense catS expS response
        expense_description telegram_user_id))
    else Except.ok (response, none)

/-- `ClassificationService.persist_with_category`: when the user-selected
category equals the LLM's, persist the original response; otherwise
persist a modified response with the selected category, confidence 1.0,
a comments field set to the override note, and a fresh timestamp. -/
def persist_with_category (now : Nat) (catS : CatState) (expS : ExpState)
    (expense_description : String) (llm_response : CategorizationResponse)
    (selected_category : String) (telegram_user_id : Option Int) :
    CategorizationResponse × PersistOutcome :=
  let response :=
    if selected_category = llm_response.category then llm_response
    else
      ⟨selected_category, llm_response.total_amount, llm_response.currency,
        1, llm_response.cost,
        some ("User override from \x27" ++ llm_response.category ++ "\x27"), now⟩
  (response, persist_expense catS expS response expense_description telegram_user_id)

/-- `getOrCreateCategory` characterised by the dict lookup. -/
theorem getOrCreateCategory_eq (s : CatState) (name : String) :
    getOrCreateCategory s name =
      match catLookup s name with
      | some c => (c, s)
      | none => (⟨none, name⟩, s ++ [(name, (⟨none, name⟩ : ExpenseCategory))]) := by
  unfold getOrCreateCategory catGet catAdd
  cases h : catLookup s name with
  | some c => simp [h]
  | none => simp [h]

/-- A failing `find?` over a dict stays failing until an entry with the
sought key is appended, which it then finds. -/
theorem find?_name_append_self (s : CatState) (name : String) (c : ExpenseCategory)
    (h : s.find? (fun p => p.1 = name) = none) :
    (s ++ [(name, c)]).find? (fun p => p.1 = name) = some (name, c) := by
  induction s with
  | nil => simp
  | cons p rest ih =>
    by_cases hp : p.1 = name
    · exfalso
      simp [List.find?, hp] at h
    · simp only [List.cons_append]
      simp only [List.find?, hp, decide_eq_true_eq, if_neg] at h ⊢
      exact ih h

/-- Looking up a name in a dict just extended with that name finds the
new entry. -/
theorem catLookup_append_self (s : CatState) (name : String)
    (c : ExpenseCategory) (h : catLookup s name = none) :
    catLookup (s ++ [(name, c)]) name = some c := by
  unfold catLookup at h ⊢
  have h' : s.find? (fun p => p.1 = name) = none := by
    cases hf : s.find? (fun p => p.1 = name) with
    | none => rfl
    | some q =>
      rw [hf] at h
      simp at h
  rw [find?_name_append_self s name c h']
  rfl

/-- After a get-or-create, looking up the same name finds exactly the
returned category row. -/
theorem catLookup_getOrCreate (s : CatState) (name : String) :
    catLookup (getOrCreateCategory s name).2 name =
      some (getOrCreateCategory s name).1 := by
  rw [getOrCreateCategory_eq]
  cases h : catLookup s name with
  | some c => simpa using h
  | none => simpa using catLookup_append_self s name _ h

/-- A get-or-create on an absent name adds exactly one row. -/
theorem getOrCreate_len (s : CatState) (name : String)
    (h : catLookup s name = none) :
    (getOrCreateCategory s name).2.length = s.length + 1 := by
  rw [getOrCreateCategory_eq, h]
  simp

/-- A get-or-create on a present name returns the stored row and leaves
the dict unchanged. -/
theorem getOrCreate_found (s : CatState) (name : String) (c : ExpenseCategory)
    (h : catLookup s name = some c) :
    getOrCreateCategory s name = (c, s) := by
  rw [getOrCreateCategory_eq, h]

/-- C7: persisting twice with the same returned category name (here the
same response), starting from a state where the name is absent, creates
exactly one category row: the second call reuses the row created by the
first and adds none. -/
theorem persist_twice_one_category_row (catS : CatState) (expS : ExpState)
    (r : CategorizationResponse) (d₁ d₂ : String) (u₁ u₂ : Option Int)
    (h : catLookup catS (pyStrip r.category) = none) :
    (persist_expense (persist_expense catS expS r d₁ u₁).catState
        (persist_expense catS expS r d₁ u₁).expState r d₂ u₂).catState =
      (persist_expense catS expS r d₁ u₁).catState ∧
    (persist_expense (persist_expense catS expS r d₁ u₁).catState
        (persist_expense catS expS r d₁ u₁).expState r d₂ u₂).category =
      (persist_expense catS expS r d₁ u₁).category ∧
    (persist_expense catS expS r d₁ u₁).catState.length = catS.length + 1 := by
  have hfound := catLookup_getOrCreate catS (pyStrip r.category)
  have h2 := getOrCreate_found (getOrCreateCategory catS (pyStrip r.category)).2
    (pyStrip r.category) (getOrCreateCategory catS (pyStrip r.category)).1 hfound
  refine ⟨?_, ?_, ?_⟩
  · show (getOrCreateCategory (getOrCreateCategory catS (pyStrip r.category)).2
      (pyStrip r.category)).2 = (getOrCreateCategory catS (pyStrip r.category)).2
    rw [h2]
  · show (getOrCreateCategory (getOrCreateCategory catS (pyStrip r.category)).2
      (pyStrip r.category)).1 = (getOrCreateCategory catS (pyStrip r.category)).1
    rw [h2]
  · exact getOrCreate_len catS (pyStrip r.category) h

/-- Witness for C7 with the category name `"Food"` on fresh repositories. -/
theorem persist_twice_one_category_row_witness :
    (persist_expense
        (persist_expense [] initExpState ⟨"Food", 5, Currency.USD, 1, 0, none, 0⟩ "a" none).catState
        (persist_expense [] initExpState ⟨"Food", 5, Currency.USD, 1, 0, none, 0⟩ "a" none).expState
        ⟨"Food", 5, Currency.USD, 1, 0, none, 0⟩ "b" none).catState =
      (persist_expense [] initExpState ⟨"Food", 5, Currency.USD, 1, 0, none, 0⟩ "a" none).catState ∧
    (persist_expense
        (persist_expense [] initExpState ⟨"Food", 5, Currency.USD, 1, 0, none, 0⟩ "a" none).catState
        (persist_expense [] initExpState ⟨"Food", 5, Currency.USD, 1, 0, none, 0⟩ "a" none).expState
        ⟨"Food", 5, Currency.USD, 1, 0, none, 0⟩ "b" none).category =
      (persist_expense [] initExpState ⟨"Food", 5, Currency.USD, 1, 0, none, 0⟩ "a" none).category ∧
    (persist_expense [] initExpState ⟨"Food", 5, Currency.USD, 1, 0, none, 0⟩ "a" none).catState.length =
      ([] : CatState).length + 1 :=
  persist_twice_one_category_row [] initExpState ⟨"Food", 5, Currency.USD, 1, 0, none, 0⟩
    "a" "b" none none rfl

/-- C1 (amended): the persistence path keys the category row by the
LLM's returned name after whitespace-trimming only — no case
normalization — with exact, case-sensitive lookup; hence two persist
calls whose trimmed returned names are identical (case included) resolve
to the same single category row. -/
theorem persist_category_key_is_trimmed_name (catS : CatState) (expS : ExpState)
    (r₁ r₂ : CategorizationResponse) (d₁ d₂ : String) (u₁ u₂ : Option Int)
    (h : pyStrip r₁.category = pyStrip r₂.category) :
    (persist_expense (persist_expense catS expS r₁ d₁ u₁).catState
        (persist_expense catS expS r₁ d₁ u₁).expState r₂ d₂ u₂).category =
      (persist_expense catS expS r₁ d₁ u₁).category ∧
    (persist_expense (persist_expense catS expS r₁ d₁ u₁).catState
        (persist_expense catS expS r₁ d₁ u₁).expState r₂ d₂ u₂).catState =
      (persist_expense catS expS r₁ d₁ u₁).catState := by
  have h2 := getOrCreate_found (getOrCreateCategory catS (pyStrip r₁.category)).2
    (pyStrip r₁.category) _ (catLookup_getOrCreate catS (pyStrip r₁.category))
  constructor
  · show (getOrCreateCategory (getOrCreateCategory catS (pyStrip r₁.category)).2
      (pyStrip r₂.category)).1 = (getOrCreateCategory catS (pyStrip r₁.category)).1
    rw [← h, h2]
  · show (getOrCreateCategory (getOrCreateCategory catS (pyStrip r₁.category)).2
      (pyStrip r₂.category)).2 = (getOrCreateCategory catS (pyStrip r₁.category)).2
    rw [← h, h2]

/-- Witness for C1 (amended): two persist calls both returning `"Food"`
share one category row. -/
theorem persist_category_key_is_trimmed_name_witness :
    (persist_expense
        (persist_expense [] initExpState ⟨"Food", 5, Currency.USD, 1, 0, none, 0⟩ "x" none).catState
        (persist_expense [] initExpState ⟨"Food", 5, Currency.USD, 1, 0, none, 0⟩ "x" none).expState
        ⟨"Food", 7, Currency.EUR, 1, 0, none, 0⟩ "y" none).category =
      (persist_expense [] initExpState ⟨"Food", 5, Currency.USD, 1, 0, none, 0⟩ "x" none).category ∧
    (persist_expense
        (persist_expense [] initExpState ⟨"Food", 5, Currency.USD, 1, 0, none, 0⟩ "x" none).catState
        (persist_expense [] initExpState ⟨"Food", 5, Currency.USD, 1, 0, none, 0⟩ "x" none).expState
        ⟨"Food", 7, Currency.EUR, 1, 0, none, 0⟩ "y" none).catState =
      (persist_expense [] initExpState ⟨"Food", 5, Currency.USD, 1, 0, none, 0⟩ "x" none).catState :=
  persist_category_key_is_trimmed_name [] initExpState
    ⟨"Food", 5, Currency.USD, 1, 0, none, 0⟩ ⟨"Food", 7, Currency.EUR, 1, 0, none, 0⟩
    "x" "y" none none rfl

/-- Counterexample to C1 as stated: the code does not case-normalize the
returned category name, so persisting responses whose names differ only
in letter case (`"Food"` vs `"food"`) creates two distinct category rows
instead of resolving to the same single row. -/
theorem persist_case_normalization_claim_false :
    lowerStr "Food" = lowerStr "food" ∧
    ("Food" : String) ≠ "food" ∧
    (persist_expense
        (persist_expense [] initExpState ⟨"Food", 5, Currency.USD, 1, 0, none, 0⟩ "x" none).catState
        (persist_expense [] initExpState ⟨"Food", 5, Currency.USD, 1, 0, none, 0⟩ "x" none).expState
        ⟨"food", 3, Currency.USD, 1, 0, none, 0⟩ "y" none).catState.map Prod.fst =
      ["Food", "food"] ∧
    (persist_expense
        (persist_expense [] initExpState ⟨"Food", 5, Currency.USD, 1, 0, none, 0⟩ "x" none).catState
        (persist_expense [] initExpState ⟨"Food", 5, Currency.USD, 1, 0, none, 0⟩ "x" none).expState
        ⟨"food", 3, Currency.USD, 1, 0, none, 0⟩ "y" none).category ≠
      (persist_expense [] initExpState ⟨"Food", 5, Currency.USD, 1, 0, none, 0⟩ "x" none).category := by
  refine ⟨rfl, by decide, rfl, by decide⟩

/-- A successful pattern match at the head survives extending the text. -/
theorem startsWithL_append (p l t : List Char) (h : startsWithL p l = true) :
    startsWithL p (l ++ t) = true := by
  induction p generalizing l with
  | nil => simp [startsWithL]
  | cons q ps ih =>
    cases l with
    | nil => simp [startsWithL] at h
    | cons c cs =>
      simp only [startsWithL, Bool.and_eq_true] at h
      simp only [List.cons_append, startsWithL, Bool.and_eq_true]
      exact ⟨h.1, ih cs h.2⟩

/-- The empty pattern is contained in every text. -/
theorem containsL_nil (l : List Char) : containsL [] l = true := by
  cases l with
  | nil => rfl
  | cons c cs => simp [containsL, startsWithL]

/-- A contained pattern stays contained when the text is extended on the
right. -/
theorem containsL_append (pat l t : List Char) (h : containsL pat l = true) :
    containsL pat (l ++ t) = true := by
  induction l with
  | nil =>
    simp only [containsL] at h
    cases pat with
    | nil => simpa using containsL_nil t
    | cons q ps => simp [startsWithL] at h
  | cons c cs ih =>
    simp only [containsL, Bool.or_eq_true] at h
    rcases h with h | h
    · simp only [List.cons_append, containsL, Bool.or_eq_true]
      exact Or.inl (startsWithL_append pat (c :: cs) t h)
    · simp only [List.cons_append, containsL, Bool.or_eq_true]
      exact Or.inr (ih h)

/-- The override note always contains the substring `"override"`,
whatever the original category name was. -/
theorem override_note_contains_override (catName : String) :
    containsSub "override" ("User override from \x27" ++ catName ++ "\x27") = true := by
  show containsL "override".data
    ((("User override from \x27" ++ catName) ++ "\x27")).data = true
  have hd : ((("User override from \x27" ++ catName) ++ "\x27")).data =
      ("User override from \x27".data ++ catName.data) ++ "\x27".data := rfl
  rw [hd]
  apply containsL_append
  apply containsL_append
  decide

/-- C2 (amended): when the user-selected category differs from the LLM's,
`persist_with_category` returns and persists a response whose category is
the selected one, whose confidence is forced to 1.0, and whose comments
field is replaced by (not appended with) a note recording the override,
that note containing the string `"override"`. -/
theorem persist_with_category_override (now : Nat) (catS : CatState) (expS : ExpState)
    (desc : String) (llm : CategorizationResponse) (sel : String) (uid : Option Int)
    (h : sel ≠ llm.category) :
    ((persist_with_category now catS expS desc llm sel uid).1.category = sel ∧
     (persist_with_category now catS expS desc llm sel uid).1.confidence = 1 ∧
     (persist_with_category now catS expS desc llm sel uid).1.comments =
       some ("User override from \x27" ++ llm.category ++ "\x27")) ∧
    containsSub "override" ("User override from \x27" ++ llm.category ++ "\x27") = true ∧
    (persist_with_category now catS expS desc llm sel uid).2.expense.category =
      some (persist_with_category now catS expS desc llm sel uid).2.category := by
  refine ⟨?_, override_note_contains_override llm.category, ?_⟩
  · unfold persist_with_category
    rw [if_neg h]
    exact ⟨rfl, rfl, rfl⟩
  · unfold persist_with_category persist_expense expAdd
    simp

/-- Witness for C2 (amended): overriding `"Food"` with `"Transport"`. -/
theorem persist_with_category_override_witness :
    ((persist_with_category 0 [] initExpState "d"
        ⟨"Food", 5, Currency.USD, 1, 0, some "paid by card", 0⟩ "Transport" none).1.category =
          "Transport" ∧
     (persist_with_category 0 [] initExpState "d"
        ⟨"Food", 5, Currency.USD, 1, 0, some "paid by card", 0⟩ "Transport" none).1.confidence = 1 ∧
     (persist_with_category 0 [] initExpState "d"
        ⟨"Food", 5, Currency.USD, 1, 0, some "paid by card", 0⟩ "Transport" none).1.comments =
       some ("User override from \x27" ++ "Food" ++ "\x27")) ∧
    containsSub "override" ("User override from \x27" ++ "Food" ++ "\x27") = true ∧
    (persist_with_category 0 [] initExpState "d"
        ⟨"Food", 5, Currency.USD, 1, 0, some "paid by card", 0⟩ "Transport" none).2.expense.category =
      some (persist_with_category 0 [] initExpState "d"
        ⟨"Food", 5, Currency.USD, 1, 0, some "paid by card", 0⟩ "Transport" none).2.category :=
  persist_with_category_override 0 [] initExpState "d"
    ⟨"Food", 5, Currency.USD, 1, 0, some "paid by card", 0⟩ "Transport" none (by decide)

/-- Counterexample to C2 as stated: the override note is not appended to
the original comments — it replaces them.  With original comments
`"paid by card"`, no note exists whose appending to the original
comments yields the stored comments field. -/
theorem persist_with_category_append_claim_false :
    ¬ ∃ note : String,
        containsSub "override" note = true ∧
        (persist_with_category 0 [] initExpState "d"
            ⟨"Food", 5, Currency.USD, 1, 0, some "paid by card", 0⟩
            "Transport" none).1.comments = some ("paid by card" ++ note) := by
  rintro ⟨note, -, hcm⟩
  have hc : (persist_with_category 0 [] initExpState "d"
      ⟨"Food", 5, Currency.USD, 1, 0, some "paid by card", 0⟩
      "Transport" none).1.comments = some ("User override from \x27Food\x27" : String) := by
    rfl
  rw [hc] at hcm
  have heq : ("User override from \x27Food\x27" : String) = "paid by card" ++ note :=
    Option.some_inj.mp hcm
  have hdata : ("User override from \x27Food\x27" : String).data =
      "paid by card".data ++ note.data := by
    rw [heq]
    rfl
  have hfin : ("User override from \x27Food\x27" : String).data.take 12 =
      "paid by card".data := by
    rw [hdata]
    have h12 : (12 : Nat) = "paid by card".data.length := rfl
    rw [h12, List.take_left]
  exact absurd hfin (by decide)

/-! ## convert_currency (utils/currency.py) -/

/-- The JSON payload of the external exchange-rate API's reply, as read
by `convert_currency` (`status_code`, `result`, `conversion_result`,
`error-type`). -/
structure ApiResponse where
  status : Nat
  result : String
  conversion_result : Rat
  error_type : String
deriving Repr, DecidableEq

/-- `convert_currency`: fail when the API key is unset; query the
external API for the (from, to, amount) triple — modelled as a function
argument, since the reply comes from the network — fail unless the reply
has status 200 and result `"success"`; otherwise return the reply's
`conversion_result` as-is.  There is no same-currency shortcut. -/
def convert_currency (apiKey : String) (api : Currency → Currency → Rat → ApiResponse)
    (amount : Rat) (from_currency to_currency : Currency) : Except String Rat :=
  if apiKey = "" then Except.error "Exchange rate API key is not set."
  else
    let data := api from_currency to_currency amount
    if data.status ≠ 200 || data.result ≠ "success" then
      Except.error ("Currency conversion failed: " ++ data.error_type)
    else Except.ok data.conversion_result

/-- Counterexample to C4 as stated: the code performs no same-currency
shortcut, so when the external API reports 99 for a successful
EUR-to-EUR conversion of 100, `convert_currency` returns 99, not the
input amount. -/
theorem convert_currency_identity_claim_false :
    convert_currency "key" (fun _ _ _ => ⟨200, "success", 99, ""⟩)
        100 Currency.EUR Currency.EUR = Except.ok 99 ∧
    convert_currency "key" (fun _ _ _ => ⟨200, "success", 99, ""⟩)
        100 Currency.EUR Currency.EUR ≠ Except.ok 100 := by
  constructor
  · rfl
  · intro h
    have : (99 : Rat) = 100 := Except.ok.inj (by rw [← h]; rfl)
    norm_num at this

/-- C4 (amended): `convert_currency` returns exactly the external API's
`conversion_result` whenever the key is set and the reply is successful;
in particular same-currency conversion returns the input amount
unchanged precisely when the API reports the amount back unchanged. -/
theorem convert_currency_same_currency (apiKey : String)
    (api : Currency → Currency → Rat → ApiResponse) (amount : Rat) (C : Currency)
    (hk : apiKey ≠ "") (hst : (api C C amount).status = 200)
    (hsc : (api C C amount).result = "success")
    (hid : (api C C amount).conversion_result = amount) :
    convert_currency apiKey api amount C C = Except.ok amount := by
  unfold convert_currency
  rw [if_neg hk]
  simp only [hst, hsc]
  simp [hid]

/-- Witness for C4 (amended): an API echoing the amount back for a
same-currency pair yields the identity. -/
theorem convert_currency_same_currency_witness :
    convert_currency "key" (fun _ _ a => ⟨200, "success", a, ""⟩)
        100 Currency.EUR Currency.EUR = Except.ok 100 :=
  convert_currency_same_currency "key" (fun _ _ a => ⟨200, "success", a, ""⟩)
    100 Currency.EUR (by decide) rfl rfl rfl

/-! ## OpenAIAssistant.completion, structured-output branch (llms/openai.py) -/

/-- Python `content.find("\x7b")`: index of the first opening brace. -/
def findBrace (l : List Char) : Option Nat := l.findIdx? (fun c => c = '\x7b')

/-- Python `content.rfind("\x7d")`: index of the last closing brace. -/
def rfindBrace (l : List Char) : Option Nat :=
  match l.reverse.findIdx? (fun c => c = '\x7d') with
  | some j => some (l.length - 1 - j)
  | none => none

/-- The extraction step of the structured-output branch:
`content[content.find("\x7b") : content.rfind("\x7d") + 1]` when
`start_idx != -1 and end_idx > start_idx`, `None` (the raise branch)
otherwise. -/
def extractJsonSpan (content : String) : Option String :=
  match findBrace content.data, rfindBrace content.data with
  | some s, some e =>
    if s < e + 1 then some (String.mk ((content.data.drop s).take (e + 1 - s)))
    else none
  | _, _ => none

/-- JSON inter-token whitespace. -/
def jsonWs (c : Char) : Bool := c = ' ' || c = '\t' || c = '\n' || c = '\r'

def skipJsonWs (l : List Char) : List Char := l.dropWhile jsonWs

def isHexDig (c : Char) : Bool :=
  c.isDigit || ('a' ≤ c && c ≤ 'f') || ('A' ≤ c && c ≤ 'F')

/-- Consume the remainder of a JSON string literal (after the opening
quote), honouring escape sequences and rejecting raw control
characters, as `json.loads` does. -/
def parseStringBody : List Char → Option (List Char)
  | [] => none
  | c :: rest =>
    if c = '"' then some rest
    else if c = '\\' then
      match rest with
      | [] => none
      | e :: rest2 =>
        if e = '"' || e = '\\' || e = '/' || e = 'b' || e = 'f' ||
            e = 'n' || e = 'r' || e = 't' then
          parseStringBody rest2
        else if e = 'u' then
          match rest2 with
          | a :: b :: c2 :: d :: rest3 =>
            if isHexDig a && isHexDig b && isHexDig c2 && isHexDig d then
              parseStringBody rest3
            else none
          | _ => none
        else none
    else if c.val < 32 then none
    else parseStringBody rest

/-- One or more decimal digits. -/
def parseDigitsRun : List Char → Option (List Char)
  | c :: rest => if c.isDigit then some (rest.dropWhile Char.isDigit) else none
  | [] => none

/-- The integer part of a JSON number: `0`, or a nonzero digit followed
by digits. -/
def parseIntPart : List Char → Option (List Char)
  | c :: rest =>
    if c = '0' then some rest
    else if c.isDigit then some (rest.dropWhile Char.isDigit)
    else none
  | [] => none

/-- The optional fractional part of a JSON number. -/
def parseFracPart : List Char → Option (List Char)
  | '.' :: rest => parseDigitsRun rest
  | l => some l

/-- The optional exponent part of a JSON number. -/
def parseExpPart : List Char → Option (List Char)
  | c :: rest =>
    if c = 'e' || c = 'E' then
      match rest with
      | s :: rest2 =>
        if s = '+' || s = '-' then parseDigitsRun rest2
        else parseDigitsRun (s :: rest2)
      | [] => none
    else some (c :: rest)
  | [] => some []

/-- A JSON number after any leading minus sign. -/
def parseNumberBody (l : List Char) : Option (List Char) :=
  (parseIntPart l).bind (fun r => (parseFracPart r).bind parseExpPart)

mutual

/-- Consume one JSON value.  Fuel bounds the nesting depth; the top
level supplies more fuel than the input length, so a fuel exhaustion
never fires before a parse error on real input.  As `json.loads` does
by default, the non-standard constants `NaN`, `Infinity` and
`-Infinity` are accepted (case-sensitively; on a minus sign the number
grammar is tried first, as in CPython's scanner). -/
def parseJsonValue : Nat → List Char → Option (List Char)
  | 0, _ => none
  | _ + 1, [] => none
  | fuel + 1, c :: rest =>
    if c = '"' then parseStringBody rest
    else if c = '\x7b' then parseJsonMembers fuel (skipJsonWs rest) true
    else if c = '[' then parseJsonElems fuel (skipJsonWs rest) true
    else if c = '-' then
      match parseNumberBody rest with
      | some r => some r
      | none =>
        if startsWithL "Infinity".data rest then some (rest.drop 8) else none
    else if c.isDigit then parseNumberBody (c :: rest)
    else if startsWithL "true".data (c :: rest) then some ((c :: rest).drop 4)
    else if startsWithL "false".data (c :: rest) then some ((c :: rest).drop 5)
    else if startsWithL "null".data (c :: rest) then some ((c :: rest).drop 4)
    else if startsWithL "NaN".data (c :: rest) then some ((c :: rest).drop 3)
    else if startsWithL "Infinity".data (c :: rest) then some ((c :: rest).drop 8)
    else none

/-- Consume the members of a JSON object after its opening brace (and
any whitespace); `first` is true before any pair has been read, so an
immediate closing brace is the empty object. -/
def parseJsonMembers : Nat → List Char → Bool → Option (List Char)
  | 0, _, _ => none
  | _ + 1, [], _ => none
  | fuel + 1, c :: rest, first =>
    if first = true ∧ c = '\x7d' then some rest
    else if c = '"' then
      match parseStringBody rest with
      | none => none
      | some r1 =>
        match skipJsonWs r1 with
        | ':' :: r2 =>
          match parseJsonValue fuel (skipJsonWs r2) with
          | none => none
          | some r3 =>
            match skipJsonWs r3 with
            | '\x7d' :: r4 => some r4
            | ',' :: r4 => parseJsonMembers fuel (skipJsonWs r4) false
            | _ => none
        | _ => none
    else none

/-- Consume the elements of a JSON array after its opening bracket (and
any whitespace). -/
def parseJsonElems : Nat → List Char → Bool → Option (List Char)
  | 0, _, _ => none
  | _ + 1, [], _ => none
  | fuel + 1, c :: rest, first =>
    if first = true ∧ c = ']' then some rest
    else
      match parseJsonValue fuel (c :: rest) with
      | none => none
      | some r1 =>
        match skipJsonWs r1 with
        | ']' :: r2 => some r2
        | ',' :: r2 => parseJsonElems fuel (skipJsonWs r2) false
        | _ => none

end

/-- Does `json.loads` accept the string?  One JSON value surrounded by
optional whitespace and nothing else. -/
def jsonParses (s : String) : Bool :=
  match parseJsonValue (s.data.length + 1) (skipJsonWs s.data) with
  | some rest => (skipJsonWs rest).isEmpty
  | none => false

/-- The structured-output branch of `OpenAIAssistant.completion`: extract
the first-brace-to-last-brace slice (raising `ValueError` when there is
none) and run it through `json.loads` (raising `ValueError` on a
`JSONDecodeError`).  The `Except.ok` value is the extracted JSON payload
from which the typed response is then built; no branch returns a
defaulted response. -/
def completionStructured (content : String) : Except String String :=
  match extractJsonSpan content with
  | none => Except.error ("No valid JSON found in response: " ++ content)
  | some json_content =>
    if jsonParses json_content then Except.ok json_content
    else Except.error ("Failed to parse JSON response; Content: " ++ content)

/-- Scan for the closing brace that balances an opening brace at the
start of the scan, returning the span length. -/
def scanBalanced : List Char → Nat → Nat → Option Nat
  | [], _, _ => none
  | c :: rest, depth, count =>
    if c = '\x7d' ∧ depth = 1 then some (count + 1)
    else
      scanBalanced rest
        (if c = '\x7b' then depth + 1 else if c = '\x7d' then depth - 1 else depth)
        (count + 1)

/-- Modelled from the spec: the claim's "first balanced brace span of
the reply" — the slice starting at the first opening brace and ending at
the closing brace that balances it.  This is what the spec describes;
the code's `extractJsonSpan` is compared against it. -/
def firstBalancedSpan (content : String) : Option String :=
  match findBrace content.data with
  | none => none
  | some i =>
    match scanBalanced (content.data.drop i) 0 0 with
    | none => none
    | some n => some (String.mk ((content.data.drop i).take n))

/-- Did the call return instead of raising? -/
def exceptIsOk : Except String String → Bool
  | Except.ok _ => true
  | Except.error _ => false

/-- Counterexample to C3 as stated: for a reply whose first balanced
brace span is valid JSON but which has a stray closing brace later, the
code slices from the first brace to the LAST brace, gets invalid JSON
and raises — it does not extract the first balanced span, which would
have parsed. -/
theorem completion_first_balanced_claim_false :
    exceptIsOk (completionStructured "\x7b\"category\": \"Food\"\x7d \x7d") = false ∧
    firstBalancedSpan "\x7b\"category\": \"Food\"\x7d \x7d" =
      some "\x7b\"category\": \"Food\"\x7d" ∧
    jsonParses "\x7b\"category\": \"Food\"\x7d" = true ∧
    extractJsonSpan "\x7b\"category\": \"Food\"\x7d \x7d" ≠
      firstBalancedSpan "\x7b\"category\": \"Food\"\x7d \x7d" := by
  refine ⟨rfl, rfl, rfl, ?_⟩
  decide

/-- C3 (amended): under structured-output mode the call returns a value
exactly when the slice from the first opening brace to the last closing
brace of the reply exists and is valid JSON, and then the returned
payload is that slice; when the reply has no such slice or the slice is
not valid JSON the call fails with an exception, and no defaulted result
is ever produced. -/
theorem completionStructured_ok_iff (content s : String) :
    completionStructured content = Except.ok s ↔
      (extractJsonSpan content = some s ∧ jsonParses s = true) := by
  unfold completionStructured
  cases h : extractJsonSpan content with
  | none =>
    simp only [h]
    constructor
    · intro hok
      exact absurd hok (by simp)
    · rintro ⟨hs, -⟩
      exact absurd hs (by simp)
  | some j =>
    simp only [h]
    by_cases hp : jsonParses j = true
    · rw [if_pos hp]
      constructor
      · intro hok
        have hjs : j = s := Except.ok.inj hok
        subst hjs
        exact ⟨rfl, hp⟩
      · rintro ⟨hs, -⟩
        rw [Option.some_inj.mp hs]
    · rw [if_neg hp]
      constructor
      · intro hok
        exact absurd hok (by simp)
      · rintro ⟨hs, hps⟩
        rw [← Option.some_inj.mp hs] at hps
        exact absurd hps hp
